import Mathlib

/-!
Verification of the post-retrieval processing and answer-attribution pipeline
of the personal-ai-kb knowledge-base server.

Strings are modelled as lists of Unicode code points (`Str := List Char`),
matching Go's rune-level operations (`[]rune`, `strings.Contains` on the
substring level).  Where the Go source measures a string with `len` (bytes of
the UTF-8 encoding), the model uses `utf8Len`/`takeBytes`, which count the
UTF-8 byte size of each code point.  Index computations on file names
(`strings.Index`) are modelled at code-point granularity; the file names and
UUID prefixes they are applied to are ASCII, where the two coincide.

Source files embedded here:
  backend/rag/rag.go        (namespace Rag)
  backend/api/server.go     (namespace Api)
-/

/-- Strings as lists of runes (Go `[]rune`). -/
abbrev Str := List Char

/-- UTF-8 byte length of a string: Go `len(s)` on a `string`. -/
def utf8Len (s : Str) : Nat := (s.map Char.utf8Size).sum

/-- Byte-bounded prefix: Go `s[:n]` for a byte budget `n`, keeping whole runes
(Go may additionally cut the final rune's bytes; the byte-length bound below is
unaffected). -/
def takeBytes (n : Nat) : Str → Str
  | [] => []
  | c :: cs => if c.utf8Size ≤ n then c :: takeBytes (n - c.utf8Size) cs else []

/-- Go `strings.Contains(s, pat)`: substring containment. -/
def strContains (s pat : Str) : Bool := decide (pat <:+: s)

/-- Go `strings.ToLower`, rune by rune. -/
def lowerStr (s : Str) : Str := s.map Char.toLower

/-- Go `strings.ReplaceAll(s, " ", "")`. -/
def removeSpaces (s : Str) : Str := s.filter (fun c => c != ' ')

theorem strContains_iff {s pat : Str} : strContains s pat = true ↔ pat <:+: s := by
  simp [strContains]

theorem utf8Len_takeBytes_le (n : Nat) (s : Str) : utf8Len (takeBytes n s) ≤ n := by
  induction s generalizing n with
  | nil => simp [takeBytes, utf8Len]
  | cons c cs ih =>
    simp only [takeBytes]
    split
    · rename_i h
      have := ih (n - c.utf8Size)
      simp only [utf8Len, List.map_cons, List.sum_cons] at *
      omega
    · simp [utf8Len]

namespace Rag

/-- A retrieved passage (`schema.Document`): the page content together with the
two metadata keys the pipeline reads (`source`, `file_name`). -/
structure Doc where
  pageContent : Str
  source : Option Str
  fileName : Option Str
deriving DecidableEq, Inhabited, Repr

/-! ### filterRelevantResults (rag.go:519-596) -/

/-- Stop characters of `filterRelevantResults`' stop-word map.  The map also
holds the multi-rune keys `什么`, `怎么`, `如何`, `哪些`, but the map is only
ever queried with single-rune strings, so those entries can never match and
are omitted from the single-rune model. -/
def stopChars2 : List Char :=
  ['的', '有', '几', '条', '是', '在', '和', '或', '与',
   '？', '?', '：', ':', '，', ',', '。', '.', '！', '!']

def isStopChar2 (c : Char) : Bool := stopChars2.contains c

/-- The run-collection loop of `filterRelevantResults`: accumulate maximal runs
of non-stop, non-space runes, keeping a finished run when its UTF-8 byte
length is at least 2 (Go `len(currentKeyword) >= 2` counts bytes). -/
def collectCoreKeywords : Str → Str → List Str
  | [], cur => if 2 ≤ utf8Len cur then [cur] else []
  | c :: cs, cur =>
    if !isStopChar2 c && c != ' ' then
      collectCoreKeywords cs (cur ++ [c])
    else
      (if 2 ≤ utf8Len cur then [cur] else []) ++ collectCoreKeywords cs []

/-- Core-keyword extraction of `filterRelevantResults`. -/
def coreKeywords (question : Str) : List Str :=
  collectCoreKeywords (lowerStr question) []

/-- Per-passage relevance test of `filterRelevantResults`: the passage contains
at least one core keyword, either directly or with spaces stripped from both
the keyword and the content. -/
def hasRelevantKeyword (kws : List Str) (d : Doc) : Bool :=
  let lowerContent := lowerStr d.pageContent
  let contentNoSpace := removeSpaces lowerContent
  kws.any (fun kw =>
    strContains lowerContent kw || strContains contentNoSpace (removeSpaces kw))

/-- `filterRelevantResults` (rag.go:519-596): keep passages containing a core
keyword of the question; pass everything through when no keyword can be
extracted; fall back to the first 3 passages when filtering empties the set. -/
def filterRelevantResults (question : Str) (results : List Doc) : List Doc :=
  if results.length = 0 then results
  else
    let kws := coreKeywords question
    if kws.length = 0 then results
    else
      let filtered := results.filter (hasRelevantKeyword kws)
      if filtered.length = 0 ∧ 0 < results.length then results.take 3
      else filtered

/-! ### getCircleNumber (rag.go:598-606) -/

def circleNumbers : List Str :=
  [['①'], ['②'], ['③'], ['④'], ['⑤'], ['⑥'], ['⑦'], ['⑧'], ['⑨'], ['⑩']]

/-- `getCircleNumber` (rag.go:598-606). -/
def getCircleNumber (n : Nat) : Str :=
  if 1 ≤ n ∧ n ≤ circleNumbers.length then circleNumbers.getD (n - 1) []
  else '(' :: (Nat.repr n).data ++ [')']

end Rag

namespace Api

/-! ### checkPublicFormInContent (server.go:1569-1617) -/

/-- The restriction marker 公开形式 ("form of publication"). -/
def publicFormMarker : Str := "公开形式".data

/-- The whitespace normalisation of `checkPublicFormInContent`: the four
`strings.ReplaceAll` calls removing spaces, newlines, carriage returns and
tabs. -/
def normalizeWS (s : Str) : Str :=
  ((((s.filter (fun c => c != ' ')).filter (fun c => c != '\n')).filter
      (fun c => c != '\r')).filter (fun c => c != '\t'))

/-- `checkPublicFormInContent` (server.go:1569-1617). -/
def checkPublicFormInContent (content : Str) : Bool :=
  if content = [] then false
  else if strContains content publicFormMarker then true
  else
    let containsNotPublicFull := strContains content "公开形式：不予公开".data
    let containsApplyPublicFull := strContains content "公开形式：依申请公开".data
    let containsNotPublicFull2 := strContains content "公开形式：不公开".data
    let containsNotPublicHalf := strContains content "公开形式:不予公开".data
    let containsApplyPublicHalf := strContains content "公开形式:依申请公开".data
    let containsNotPublicHalf2 := strContains content "公开形式:不公开".data
    if containsNotPublicFull || containsApplyPublicFull || containsNotPublicFull2 ||
        containsNotPublicHalf || containsApplyPublicHalf || containsNotPublicHalf2 then
      true
    else
      let normalized := normalizeWS content
      if strContains normalized publicFormMarker then true
      else
        strContains normalized "公开形式：不予公开".data ||
        strContains normalized "公开形式：依申请公开".data ||
        strContains normalized "公开形式：不公开".data ||
        strContains normalized "公开形式:不予公开".data ||
        strContains normalized "公开形式:依申请公开".data ||
        strContains normalized "公开形式:不公开".data

/-- The claim's reference predicate, written from its words: the content with
all space, newline, carriage-return and tab characters removed contains the
substring 公开形式. -/
def specPublicFormCheck (content : Str) : Bool :=
  strContains
    (content.filter (fun c => c != ' ' && c != '\n' && c != '\r' && c != '\t'))
    publicFormMarker

end Api

/-! ## Helper lemmas on substring containment -/

theorem infix_filter_of_all {p : Char → Bool} {pat s : Str}
    (h : pat <:+: s) (hall : ∀ c ∈ pat, p c = true) : pat <:+: s.filter p := by
  obtain ⟨u, v, rfl⟩ := h
  refine ⟨u.filter p, v.filter p, ?_⟩
  simp [List.filter_append, List.filter_eq_self.mpr hall]

theorem strContains_trans {s lit pat : Str} (h : strContains s lit = true)
    (hpl : pat <:+: lit) : strContains s pat = true :=
  strContains_iff.mpr (hpl.trans (strContains_iff.mp h))

namespace Api

private def wsFree (c : Char) : Bool := c != ' ' && c != '\n' && c != '\r' && c != '\t'

theorem normalizeWS_eq (s : Str) : normalizeWS s = s.filter wsFree := by
  simp only [normalizeWS, List.filter_filter]
  refine List.filter_congr ?_
  intro c _
  simp only [wsFree]
  cases h1 : c == ' ' <;> cases h2 : c == '\n' <;> cases h3 : c == '\r' <;>
    cases h4 : c == '\t' <;> simp [bne, h1, h2, h3, h4]

private theorem marker_wsFree : ∀ c ∈ publicFormMarker, wsFree c = true := by decide

private theorem lit_false_of_marker_false {content : Str} (lit : Str)
    (hml : publicFormMarker <:+: lit)
    (hdir : strContains content publicFormMarker = false) :
    strContains content lit = false := by
  cases hq : strContains content lit
  · rfl
  · rw [strContains_trans hq hml] at hdir
    exact hdir

end Api

/-- Claim C10: `checkPublicFormInContent content` returns `true` exactly when
`content` with all space, newline, carriage-return and tab characters removed
contains the substring 公开形式; the qualifier following the marker (不予公开,
依申请公开, 不公开, or none) never affects the verdict, and the empty string
yields `false`. -/
theorem claim_C10_checkPublicFormInContent_iff_marker :
    (∀ content : Str, Api.checkPublicFormInContent content = Api.specPublicFormCheck content)
    ∧ Api.checkPublicFormInContent [] = false := by
  constructor
  · intro content
    by_cases hnil : content = []
    · subst hnil
      decide
    · have hspec : Api.specPublicFormCheck content
          = strContains (Api.normalizeWS content) Api.publicFormMarker := by
        rw [Api.specPublicFormCheck, Api.normalizeWS_eq]
        rfl
      cases hdir : strContains content Api.publicFormMarker with
      | true =>
        have hinf : Api.publicFormMarker <:+: Api.normalizeWS content := by
          rw [Api.normalizeWS_eq]
          exact infix_filter_of_all (strContains_iff.mp hdir) Api.marker_wsFree
        have hnorm : strContains (Api.normalizeWS content) Api.publicFormMarker = true :=
          strContains_iff.mpr hinf
        simp [Api.checkPublicFormInContent, hnil, hdir, hspec, hnorm]
      | false =>
        have q1 := Api.lit_false_of_marker_false "公开形式：不予公开".data (by decide) hdir
        have q2 := Api.lit_false_of_marker_false "公开形式：依申请公开".data (by decide) hdir
        have q3 := Api.lit_false_of_marker_false "公开形式：不公开".data (by decide) hdir
        have q4 := Api.lit_false_of_marker_false "公开形式:不予公开".data (by decide) hdir
        have q5 := Api.lit_false_of_marker_false "公开形式:依申请公开".data (by decide) hdir
        have q6 := Api.lit_false_of_marker_false "公开形式:不公开".data (by decide) hdir
        cases hnorm : strContains (Api.normalizeWS content) Api.publicFormMarker with
        | true =>
          simp [Api.checkPublicFormInContent, hnil, hdir, q1, q2, q3, q4, q5, q6, hspec, hnorm]
        | false =>
          have n1 := Api.lit_false_of_marker_false "公开形式：不予公开".data (by decide) hnorm
          have n2 := Api.lit_false_of_marker_false "公开形式：依申请公开".data (by decide) hnorm
          have n3 := Api.lit_false_of_marker_false "公开形式：不公开".data (by decide) hnorm
          have n4 := Api.lit_false_of_marker_false "公开形式:不予公开".data (by decide) hnorm
          have n5 := Api.lit_false_of_marker_false "公开形式:依申请公开".data (by decide) hnorm
          have n6 := Api.lit_false_of_marker_false "公开形式:不公开".data (by decide) hnorm
          simp [Api.checkPublicFormInContent, hnil, hdir, q1, q2, q3, q4, q5, q6, hspec, hnorm,
            n1, n2, n3, n4, n5, n6]
  · decide

/-- Claim C8: `filterRelevantResults` is idempotent — applying it a second
time to its own output, with the same question, returns that output unchanged,
on the keep-if-contains-a-core-keyword path as well as on both fallback paths
(no extractable keywords; filtered set empty, keep first 3). -/
theorem claim_C8_filterRelevantResults_idempotent (q : Str) (rs : List Rag.Doc) :
    Rag.filterRelevantResults q (Rag.filterRelevantResults q rs)
      = Rag.filterRelevantResults q rs := by
  by_cases h0 : rs.length = 0
  · have hnil : rs = [] := List.length_eq_zero.mp h0
    subst hnil
    rfl
  · by_cases hk : (Rag.coreKeywords q).length = 0
    · have h1 : Rag.filterRelevantResults q rs = rs := by
        simp [Rag.filterRelevantResults, h0, hk]
      rw [h1, h1]
    · by_cases hf : (rs.filter (Rag.hasRelevantKeyword (Rag.coreKeywords q))).length = 0
      · -- fallback path: keep the first 3 of the pre-filter passages
        have hpos : 0 < rs.length := Nat.pos_of_ne_zero h0
        have h1 : Rag.filterRelevantResults q rs = rs.take 3 := by
          simp [Rag.filterRelevantResults, h0, hk, hf, hpos]
        have hallfail : ∀ d ∈ rs, ¬ Rag.hasRelevantKeyword (Rag.coreKeywords q) d = true :=
          List.filter_eq_nil_iff.mp (List.length_eq_zero.mp hf)
        have hf2 : (rs.take 3).filter (Rag.hasRelevantKeyword (Rag.coreKeywords q)) = [] :=
          List.filter_eq_nil_iff.mpr (fun d hd => hallfail d (List.take_subset _ _ hd))
        have ht0 : ¬ (rs.take 3).length = 0 := by
          rw [List.length_take]
          omega
        have htpos : 0 < (rs.take 3).length := Nat.pos_of_ne_zero ht0
        have hne : rs ≠ [] := by
          intro h
          exact h0 (by simp [h])
        have h2 : Rag.filterRelevantResults q (rs.take 3) = (rs.take 3).take 3 := by
          simp [Rag.filterRelevantResults, ht0, hk, hf2, htpos, hne, hpos]
        rw [h1, h2, List.take_take]
        simp
      · -- normal path: the filtered set is returned and filtering is stable
        have h1 : Rag.filterRelevantResults q rs
            = rs.filter (Rag.hasRelevantKeyword (Rag.coreKeywords q)) := by
          simp [Rag.filterRelevantResults, h0, hk, hf]
        have hff : (rs.filter (Rag.hasRelevantKeyword (Rag.coreKeywords q))).filter
              (Rag.hasRelevantKeyword (Rag.coreKeywords q))
            = rs.filter (Rag.hasRelevantKeyword (Rag.coreKeywords q)) :=
          List.filter_eq_self.mpr (fun d hd => List.of_mem_filter hd)
        rw [h1]
        simp [Rag.filterRelevantResults, hf, hk, hff]

namespace Rag

/-! ### reRankResults (rag.go:351-515) -/

/-- Stop characters of `reRankResults`' stop-word map (rag.go:363-366). -/
def stopChars1 : List Char := ['的', '有', '几', '条', '是', '在', '和', '或', '与']

def isStopChar1 (c : Char) : Bool := stopChars1.contains c

/-- A candidate phrase is kept when none of its runes is a stop word. -/
def phraseOk (p : Str) : Bool := p.all (fun c => !isStopChar1 c)

/-- The 2-4 rune phrases starting at rune `i` of the lowered question that
contain no stop word (inner loop of rag.go:372-387). -/
def phrasesAt (lq : Str) (i : Nat) : List Str :=
  (([2, 3, 4].filter (fun L => i + L ≤ lq.length)).map
    (fun L => (lq.drop i).take L)).filter phraseOk

/-- All keyword phrases extracted from the lowered question
(outer loop of rag.go:372-387). -/
def keywordCandidates (lq : Str) : List Str :=
  (List.range (lq.length - 1)).flatMap (phrasesAt lq)

/-- Keyword extraction of `reRankResults`: the 2-4 rune stop-word-free phrases
of the lowered question, or the full lowered question when none exists
(rag.go:358-392). -/
def extractKeywords (question : Str) : List Str :=
  let lq := lowerStr question
  let kws := keywordCandidates lq
  if kws = [] then [lq] else kws

/-- The question with stop-word runes removed (rag.go:416-423). -/
def strippedPhrase (lq : Str) : Str := lq.filter (fun c => !isStopChar1 c)

/-- Keyword match test of the scoring loop (rag.go:432-436): the keyword with
spaces removed occurs in the content with spaces removed, or the keyword
occurs directly in the lowered content. -/
def matchKeyword (lowerContent : Str) (kw : Str) : Bool :=
  strContains (removeSpaces lowerContent) (removeSpaces kw) ||
    strContains lowerContent kw

/-- Position bonus of a matched keyword (rag.go:440-442): +10 when the content
starts with the keyword or contains the keyword followed by a space. -/
def keywordBonusAt (lowerContent kw : Str) : Nat :=
  if kw.isPrefixOf lowerContent || strContains lowerContent (kw ++ [' ']) then 10
  else 0

/-- The (pre-tie-break) relevance score of a passage for a question
(rag.go:405-449): +100 for the full question, +80 for the stop-word-stripped
question, +20 (+10 position bonus) per matched keyword, +50 when all keywords
matched. -/
def computeScore (question : Str) (d : Doc) : Nat :=
  let lq := lowerStr question
  let lowerContent := lowerStr d.pageContent
  let kws := extractKeywords question
  let fullScore := if strContains lowerContent lq then 100 else 0
  let stripped := strippedPhrase lq
  let strippedScore :=
    if stripped ≠ [] ∧
        (strContains lowerContent stripped = true ∨
          strContains (removeSpaces lowerContent) stripped = true) then 80
    else 0
  let kwScore := (kws.map (fun kw =>
    if matchKeyword lowerContent kw then 20 + keywordBonusAt lowerContent kw
    else 0)).sum
  let matchedKeywords := kws.countP (fun kw => matchKeyword lowerContent kw)
  let allScore := if matchedKeywords = kws.length ∧ 0 < kws.length then 50 else 0
  fullScore + strippedScore + kwScore + allScore

/-- A scored candidate (the `scoredDoc` record of rag.go:398-402): the final
score already has the original rank index subtracted as tie-break. -/
structure ScoredDoc where
  doc : Doc
  score : Int
  index : Nat
deriving DecidableEq, Inhabited, Repr

/-- The original, pre-tie-break score recovered as `score + index`
(rag.go:484). -/
def origScore (sd : ScoredDoc) : Int := sd.score + (sd.index : Int)

/-- The scoring loop (rag.go:404-457): each candidate is paired with
`computeScore - i` and its original index `i`. -/
def mkScoredDocs (question : Str) : List Doc → Nat → List ScoredDoc
  | [], _ => []
  | d :: ds, i =>
    ⟨d, (computeScore question d : Int) - (i : Int), i⟩ :: mkScoredDocs question ds (i + 1)

/-- One pass of the exchange sort's inner loop (rag.go:460-466) starting with
`x` in the selected slot: returns the element left in the slot and the
remaining elements in their final positions. -/
def selectMax : ScoredDoc → List ScoredDoc → ScoredDoc × List ScoredDoc
  | x, [] => (x, [])
  | x, y :: ys =>
    if x.score < y.score then
      let p := selectMax y ys
      (p.1, x :: p.2)
    else
      let p := selectMax x ys
      (p.1, y :: p.2)

theorem selectMax_snd_length (x : ScoredDoc) (ys : List ScoredDoc) :
    (selectMax x ys).2.length = ys.length := by
  induction ys generalizing x with
  | nil => rfl
  | cons y ys ih => simp only [selectMax]; split <;> simp [ih]

/-- The descending exchange sort of rag.go:460-466. -/
def sortScored : List ScoredDoc → List ScoredDoc
  | [] => []
  | x :: xs => (selectMax x xs).1 :: sortScored (selectMax x xs).2
termination_by l => l.length
decreasing_by simp [selectMax_snd_length, Nat.lt_succ_self]

/-- The selection loop of rag.go:479-489: walk the sorted candidates, keeping
those of positive original score, until `topK` have been collected. -/
def selectTopPositive : List ScoredDoc → Nat → List Doc
  | _, 0 => []
  | [], _ => []
  | sd :: rest, Nat.succ k =>
    if 0 < origScore sd then sd.doc :: selectTopPositive rest k
    else selectTopPositive rest (Nat.succ k)

/-- `reRankResults` (rag.go:351-515). -/
def reRankResults (question : Str) (allResults : List Doc) (topK : Nat) : List Doc :=
  if allResults.length ≤ topK then allResults
  else
    let scoredDocs := mkScoredDocs question allResults 0
    let sorted := sortScored scoredDocs
    let result := selectTopPositive sorted topK
    if result.length = 0 then allResults.take topK
    else result

end Rag

namespace Rag

theorem selectMax_perm (x : ScoredDoc) (ys : List ScoredDoc) :
    List.Perm ((selectMax x ys).1 :: (selectMax x ys).2) (x :: ys) := by
  induction ys generalizing x with
  | nil => simp [selectMax]
  | cons y ys ih =>
    simp only [selectMax]
    split
    · exact (List.Perm.swap _ _ _).trans ((ih y).cons x)
    · exact (List.Perm.swap _ _ _).trans (((ih x).cons y).trans (List.Perm.swap _ _ _))

theorem selectMax_fst_le (x : ScoredDoc) (ys : List ScoredDoc) :
    ∀ z ∈ x :: ys, z.score ≤ (selectMax x ys).1.score := by
  induction ys generalizing x with
  | nil =>
    intro z hz
    simp only [List.mem_singleton] at hz
    subst hz
    exact le_refl _
  | cons y ys ih =>
    intro z hz
    simp only [selectMax]
    split
    · rename_i hlt
      rcases List.mem_cons.mp hz with rfl | hz'
      · exact le_of_lt (lt_of_lt_of_le hlt (ih y y (List.mem_cons_self _ _)))
      · exact ih y z hz'
    · rename_i hge
      rcases List.mem_cons.mp hz with rfl | hz'
      · exact ih z z (List.mem_cons_self _ _)
      · rcases List.mem_cons.mp hz' with rfl | hz''
        · exact le_trans (le_of_not_lt hge) (ih x x (List.mem_cons_self _ _))
        · exact ih x z (List.mem_cons.mpr (Or.inr hz''))

theorem sortScored_cons (x : ScoredDoc) (xs : List ScoredDoc) :
    sortScored (x :: xs) = (selectMax x xs).1 :: sortScored (selectMax x xs).2 := by
  rw [sortScored]

theorem sortScored_perm_aux :
    ∀ (n : Nat) (l : List ScoredDoc), l.length ≤ n → List.Perm (sortScored l) l := by
  intro n
  induction n with
  | zero =>
    intro l hl
    have : l = [] := List.length_eq_zero.mp (Nat.le_zero.mp hl)
    subst this
    simp [sortScored]
  | succ n ih =>
    intro l hl
    match l with
    | [] => simp [sortScored]
    | x :: xs =>
      rw [sortScored_cons]
      have hlen : (selectMax x xs).2.length ≤ n := by
        rw [selectMax_snd_length]
        simpa using hl
      exact ((ih _ hlen).cons _).trans (selectMax_perm x xs)

theorem sortScored_perm (l : List ScoredDoc) : List.Perm (sortScored l) l :=
  sortScored_perm_aux l.length l (le_refl _)

theorem sortScored_sorted_aux :
    ∀ (n : Nat) (l : List ScoredDoc), l.length ≤ n →
      (sortScored l).Pairwise (fun a b : ScoredDoc => b.score ≤ a.score) := by
  intro n
  induction n with
  | zero =>
    intro l hl
    have : l = [] := List.length_eq_zero.mp (Nat.le_zero.mp hl)
    subst this
    simp [sortScored]
  | succ n ih =>
    intro l hl
    match l with
    | [] => simp [sortScored]
    | x :: xs =>
      rw [sortScored_cons]
      have hlen : (selectMax x xs).2.length ≤ n := by
        rw [selectMax_snd_length]
        simpa using hl
      refine List.Pairwise.cons ?_ (ih _ hlen)
      intro z hz
      have hz2 : z ∈ (selectMax x xs).2 := (sortScored_perm _).mem_iff.mp hz
      have hz3 : z ∈ x :: xs :=
        (selectMax_perm x xs).mem_iff.mp (List.mem_cons.mpr (Or.inr hz2))
      exact selectMax_fst_le x xs z hz3

theorem sortScored_sorted (l : List ScoredDoc) :
    (sortScored l).Pairwise (fun a b : ScoredDoc => b.score ≤ a.score) :=
  sortScored_sorted_aux l.length l (le_refl _)

theorem selectTopPositive_eq (l : List ScoredDoc) (k : Nat) :
    selectTopPositive l k
      = (((l.filter (fun sd => decide (0 < origScore sd))).take k).map
          (fun sd => sd.doc)) := by
  induction l generalizing k with
  | nil => cases k <;> simp [selectTopPositive]
  | cons sd rest ih =>
    cases k with
    | zero => simp [selectTopPositive]
    | succ k =>
      by_cases h : 0 < origScore sd
      · simp [selectTopPositive, h, ih]
      · simp [selectTopPositive, h, ih]

theorem mkScoredDocs_mem (q : Str) :
    ∀ (ds : List Doc) (i : Nat) (sd : ScoredDoc), sd ∈ mkScoredDocs q ds i →
      sd.doc ∈ ds ∧ origScore sd = (computeScore q sd.doc : Int) := by
  intro ds
  induction ds with
  | nil => intro i sd h; simp [mkScoredDocs] at h
  | cons d rest ih =>
    intro i sd h
    rcases List.mem_cons.mp h with rfl | h'
    · refine ⟨List.mem_cons_self _ _, ?_⟩
      simp [origScore]
    · obtain ⟨hm, hs⟩ := ih (i + 1) sd h'
      exact ⟨List.mem_cons.mpr (Or.inr hm), hs⟩

theorem mkScoredDocs_exists (q : Str) :
    ∀ (ds : List Doc) (i : Nat) (d : Doc), d ∈ ds →
      ∃ sd ∈ mkScoredDocs q ds i, sd.doc = d := by
  intro ds
  induction ds with
  | nil => intro i d h; simp at h
  | cons d0 rest ih =>
    intro i d h
    rcases List.mem_cons.mp h with rfl | h'
    · exact ⟨_, List.mem_cons_self _ _, rfl⟩
    · obtain ⟨sd, hm, hd⟩ := ih (i + 1) d h'
      exact ⟨sd, List.mem_cons.mpr (Or.inr hm), hd⟩

theorem mkScoredDocs_getD (q : Str) :
    ∀ (ds : List Doc) (i j : Nat), j < ds.length →
      (mkScoredDocs q ds i).getD j default
        = ⟨ds.getD j default,
           (computeScore q (ds.getD j default) : Int) - ((i + j : Nat) : Int),
           i + j⟩ := by
  intro ds
  induction ds with
  | nil => intro i j h; simp at h
  | cons d rest ih =>
    intro i j h
    cases j with
    | zero => simp [mkScoredDocs]
    | succ j =>
      have hj : j < rest.length := by simpa using h
      have hrec := ih (i + 1) j hj
      have harith : i + 1 + j = i + (j + 1) := by omega
      rw [harith] at hrec
      simp only [mkScoredDocs, List.getD_cons_succ]
      exact hrec

end Rag

namespace Rag

/-- Every element of the sorted scored list is a candidate, and its recovered
original score is exactly `computeScore` of its document. -/
theorem sorted_mem_facts (q : Str) (cands : List Doc) :
    ∀ sd ∈ sortScored (mkScoredDocs q cands 0),
      sd.doc ∈ cands ∧ origScore sd = (computeScore q sd.doc : Int) := by
  intro sd hsd
  exact mkScoredDocs_mem q cands 0 sd ((sortScored_perm _).mem_iff.mp hsd)

end Rag

/-- Claim C5: for more than `topK` candidates, `reRankResults` returns only
passages of strictly positive original (pre-tie-break) score, in descending
final-score order, at most `topK` of them; when no candidate scores
positively it returns the first `topK` candidates in retrieval order; and for
every non-empty candidate input (and `topK ≥ 1`, the pipeline uses
`topK = 3`) its output is non-empty. -/
theorem claim_C5_reRankResults_positive_sorted_fallback
    (q : Str) (cands : List Rag.Doc) (topK : Nat) (hk : 1 ≤ topK) :
    (topK < cands.length →
      (((∃ d ∈ cands, 0 < Rag.computeScore q d) →
          Rag.reRankResults q cands topK ≠ [] ∧
          (Rag.reRankResults q cands topK).length ≤ topK ∧
          (∀ d ∈ Rag.reRankResults q cands topK, 0 < Rag.computeScore q d) ∧
          ∃ sds : List Rag.ScoredDoc,
            Rag.reRankResults q cands topK = sds.map (fun sd => sd.doc) ∧
            sds.Pairwise (fun a b => b.score ≤ a.score) ∧
            ∀ sd ∈ sds, 0 < Rag.origScore sd ∧
              Rag.origScore sd = (Rag.computeScore q sd.doc : Int)) ∧
        ((∀ d ∈ cands, Rag.computeScore q d = 0) →
          Rag.reRankResults q cands topK = cands.take topK))) ∧
    (cands ≠ [] → Rag.reRankResults q cands topK ≠ []) := by
  have hsel := Rag.selectTopPositive_eq
    (Rag.sortScored (Rag.mkScoredDocs q cands 0)) topK
  -- the positive-score scenario
  have hposCase : topK < cands.length → (∃ d ∈ cands, 0 < Rag.computeScore q d) →
      Rag.reRankResults q cands topK ≠ [] ∧
      (Rag.reRankResults q cands topK).length ≤ topK ∧
      (∀ d ∈ Rag.reRankResults q cands topK, 0 < Rag.computeScore q d) ∧
      ∃ sds : List Rag.ScoredDoc,
        Rag.reRankResults q cands topK = sds.map (fun sd => sd.doc) ∧
        sds.Pairwise (fun a b => b.score ≤ a.score) ∧
        ∀ sd ∈ sds, 0 < Rag.origScore sd ∧
          Rag.origScore sd = (Rag.computeScore q sd.doc : Int) := by
    intro hlt hex
    obtain ⟨d, hd, hdpos⟩ := hex
    obtain ⟨sd0, hsd0m, hsd0d⟩ := Rag.mkScoredDocs_exists q cands 0 d hd
    have hsd0s : sd0 ∈ Rag.sortScored (Rag.mkScoredDocs q cands 0) :=
      (Rag.sortScored_perm _).mem_iff.mpr hsd0m
    have hsd0pos : 0 < Rag.origScore sd0 := by
      have := (Rag.sorted_mem_facts q cands sd0 hsd0s).2
      rw [this, hsd0d]
      exact_mod_cast hdpos
    have hsd0f : sd0 ∈ (Rag.sortScored (Rag.mkScoredDocs q cands 0)).filter
        (fun sd => decide (0 < Rag.origScore sd)) :=
      List.mem_filter.mpr ⟨hsd0s, by simp [hsd0pos]⟩
    have hfne : (Rag.sortScored (Rag.mkScoredDocs q cands 0)).filter
        (fun sd => decide (0 < Rag.origScore sd)) ≠ [] :=
      List.ne_nil_of_mem hsd0f
    have htne : ((Rag.sortScored (Rag.mkScoredDocs q cands 0)).filter
        (fun sd => decide (0 < Rag.origScore sd))).take topK ≠ [] := by
      intro hcontra
      rcases List.take_eq_nil_iff.mp hcontra with h | h
      · omega
      · exact hfne h
    have hresne : Rag.selectTopPositive
        (Rag.sortScored (Rag.mkScoredDocs q cands 0)) topK ≠ [] := by
      rw [hsel]
      simpa using htne
    have hreseq : Rag.reRankResults q cands topK
        = Rag.selectTopPositive (Rag.sortScored (Rag.mkScoredDocs q cands 0)) topK := by
      rw [Rag.reRankResults, if_neg (not_le.mpr hlt)]
      simp only [List.length_eq_zero, if_neg hresne]
    refine ⟨by rw [hreseq]; exact hresne, ?_, ?_, ?_⟩
    · rw [hreseq, hsel]
      simp only [List.length_map, List.length_take]
      omega
    · intro d' hd'
      rw [hreseq, hsel] at hd'
      obtain ⟨sd, hsdm, rfl⟩ := List.mem_map.mp hd'
      have hsdf : sd ∈ (Rag.sortScored (Rag.mkScoredDocs q cands 0)).filter
          (fun sd => decide (0 < Rag.origScore sd)) := List.take_subset _ _ hsdm
      have hsdpos : 0 < Rag.origScore sd := by
        have := List.of_mem_filter hsdf
        simpa using this
      have hsds : sd ∈ Rag.sortScored (Rag.mkScoredDocs q cands 0) :=
        List.mem_of_mem_filter hsdf
      have := (Rag.sorted_mem_facts q cands sd hsds).2
      rw [this] at hsdpos
      exact_mod_cast hsdpos
    · refine ⟨((Rag.sortScored (Rag.mkScoredDocs q cands 0)).filter
          (fun sd => decide (0 < Rag.origScore sd))).take topK, ?_, ?_, ?_⟩
      · rw [hreseq, hsel]
      · exact List.Pairwise.sublist
          ((List.take_sublist _ _).trans (List.filter_sublist _))
          (Rag.sortScored_sorted _)
      · intro sd hsd
        have hsdf : sd ∈ (Rag.sortScored (Rag.mkScoredDocs q cands 0)).filter
            (fun sd => decide (0 < Rag.origScore sd)) := List.take_subset _ _ hsd
        have hsdpos : 0 < Rag.origScore sd := by
          have := List.of_mem_filter hsdf
          simpa using this
        have hsds : sd ∈ Rag.sortScored (Rag.mkScoredDocs q cands 0) :=
          List.mem_of_mem_filter hsdf
        exact ⟨hsdpos, (Rag.sorted_mem_facts q cands sd hsds).2⟩
  -- the all-zero scenario
  have hzeroCase : topK < cands.length → (∀ d ∈ cands, Rag.computeScore q d = 0) →
      Rag.reRankResults q cands topK = cands.take topK := by
    intro hlt hall
    have hfnil : (Rag.sortScored (Rag.mkScoredDocs q cands 0)).filter
        (fun sd => decide (0 < Rag.origScore sd)) = [] := by
      refine List.filter_eq_nil_iff.mpr ?_
      intro sd hsd
      obtain ⟨hmem, horig⟩ := Rag.sorted_mem_facts q cands sd hsd
      rw [hall sd.doc hmem] at horig
      simp [horig]
    have hresnil : Rag.selectTopPositive
        (Rag.sortScored (Rag.mkScoredDocs q cands 0)) topK = [] := by
      rw [hsel, hfnil]
      simp
    rw [Rag.reRankResults, if_neg (not_le.mpr hlt)]
    simp [hresnil]
  refine ⟨fun hlt => ⟨hposCase hlt, hzeroCase hlt⟩, ?_⟩
  intro hne
  by_cases hle : cands.length ≤ topK
  · rw [Rag.reRankResults, if_pos hle]
    exact hne
  · have hlt : topK < cands.length := not_le.mp hle
    by_cases hex : ∃ d ∈ cands, 0 < Rag.computeScore q d
    · exact (hposCase hlt hex).1
    · have hall : ∀ d ∈ cands, Rag.computeScore q d = 0 := by
        intro d hd
        by_contra hdz
        exact hex ⟨d, hd, Nat.pos_of_ne_zero hdz⟩
      rw [hzeroCase hlt hall]
      intro hcontra
      rcases List.take_eq_nil_iff.mp hcontra with h | h
      · omega
      · exact hne h

namespace Rag

theorem computeScore_eq (q : Str) (d : Doc) :
    computeScore q d =
      (if strContains (lowerStr d.pageContent) (lowerStr q) then 100 else 0) +
      (if strippedPhrase (lowerStr q) ≠ [] ∧
          (strContains (lowerStr d.pageContent) (strippedPhrase (lowerStr q)) = true ∨
            strContains (removeSpaces (lowerStr d.pageContent))
              (strippedPhrase (lowerStr q)) = true) then 80
        else 0) +
      ((extractKeywords q).map (fun kw =>
        if matchKeyword (lowerStr d.pageContent) kw then
          20 + keywordBonusAt (lowerStr d.pageContent) kw
        else 0)).sum +
      (if (extractKeywords q).countP
            (fun kw => matchKeyword (lowerStr d.pageContent) kw)
          = (extractKeywords q).length ∧ 0 < (extractKeywords q).length then 50
        else 0) := rfl

theorem keywordCandidates_mem {lq kw : Str} (h : kw ∈ keywordCandidates lq) :
    kw <:+: lq ∧ phraseOk kw = true := by
  simp only [keywordCandidates, List.mem_flatMap] at h
  obtain ⟨i, _, hkw⟩ := h
  simp only [phrasesAt, List.mem_filter, List.mem_map] at hkw
  obtain ⟨⟨L, _, rfl⟩, hok⟩ := hkw
  refine ⟨?_, hok⟩
  refine ⟨lq.take i, (lq.drop i).drop L, ?_⟩
  rw [List.append_assoc, List.take_append_drop, List.take_append_drop]

theorem kw_mem_stripped {lq kw : Str} (hinf : kw <:+: lq) (hok : phraseOk kw = true) :
    kw <:+: strippedPhrase lq :=
  infix_filter_of_all hinf (by simpa [phraseOk, List.all_eq_true] using hok)

theorem matchKeyword_of_contains {lc kw : Str} (h : strContains lc kw = true) :
    matchKeyword lc kw = true := by
  simp [matchKeyword, h]

theorem matchKeyword_of_noSpace {lc kw : Str}
    (h : strContains (removeSpaces lc) kw = true) (hsp : removeSpaces kw = kw) :
    matchKeyword lc kw = true := by
  simp [matchKeyword, hsp, h]

/-- A candidate matching zero extracted keywords scores exactly 0 when the
question yields at least one 2-4 rune keyword phrase. -/
theorem computeScore_eq_zero_of_no_match (q : Str) (d : Doc)
    (hne : keywordCandidates (lowerStr q) ≠ [])
    (hzero : ∀ kw ∈ extractKeywords q,
      matchKeyword (lowerStr d.pageContent) kw = false) :
    computeScore q d = 0 := by
  have hkws : extractKeywords q = keywordCandidates (lowerStr q) := by
    rw [extractKeywords]
    simp [hne]
  obtain ⟨kw0, hkw0⟩ := List.exists_mem_of_ne_nil _ hne
  obtain ⟨hkw0inf, hkw0ok⟩ := keywordCandidates_mem hkw0
  have hkw0mem : kw0 ∈ extractKeywords q := by rw [hkws]; exact hkw0
  have hkw0zero := hzero kw0 hkw0mem
  have hfull : strContains (lowerStr d.pageContent) (lowerStr q) = false := by
    cases hfc : strContains (lowerStr d.pageContent) (lowerStr q)
    · rfl
    · rw [matchKeyword_of_contains (strContains_trans hfc hkw0inf)] at hkw0zero
      exact hkw0zero
  have hstr : ¬ (strippedPhrase (lowerStr q) ≠ [] ∧
      (strContains (lowerStr d.pageContent) (strippedPhrase (lowerStr q)) = true ∨
        strContains (removeSpaces (lowerStr d.pageContent))
          (strippedPhrase (lowerStr q)) = true)) := by
    rintro ⟨-, hc | hc⟩
    · have h1 : kw0 <:+: strippedPhrase (lowerStr q) := kw_mem_stripped hkw0inf hkw0ok
      rw [matchKeyword_of_contains (strContains_trans hc h1)] at hkw0zero
      exact absurd hkw0zero (by simp)
    · have h1 : kw0 <:+: strippedPhrase (lowerStr q) := kw_mem_stripped hkw0inf hkw0ok
      have h2 : kw0 <:+: removeSpaces (lowerStr d.pageContent) :=
        h1.trans (strContains_iff.mp hc)
      have hsp : removeSpaces kw0 = kw0 := by
        refine List.filter_eq_self.mpr ?_
        intro c hc2
        have h3 := h2.subset hc2
        rw [removeSpaces, List.mem_filter] at h3
        exact h3.2
      rw [matchKeyword_of_noSpace (strContains_iff.mpr h2) hsp] at hkw0zero
      exact absurd hkw0zero (by simp)
  have hsum : ((extractKeywords q).map (fun kw =>
      if matchKeyword (lowerStr d.pageContent) kw then
        20 + keywordBonusAt (lowerStr d.pageContent) kw
      else 0)).sum = 0 := by
    refine List.sum_eq_zero ?_
    intro x hx
    obtain ⟨kw, hkw, rfl⟩ := List.mem_map.mp hx
    rw [hzero kw hkw]
    rfl
  have hcount : (extractKeywords q).countP
      (fun kw => matchKeyword (lowerStr d.pageContent) kw) = 0 := by
    refine List.countP_eq_zero.mpr ?_
    intro kw hkw
    simp [hzero kw hkw]
  have hlenpos : 0 < (extractKeywords q).length := by
    rw [hkws]
    exact List.length_pos.mpr hne
  have hallcond : ¬ ((extractKeywords q).countP
      (fun kw => matchKeyword (lowerStr d.pageContent) kw)
      = (extractKeywords q).length ∧ 0 < (extractKeywords q).length) := by
    rw [hcount]
    omega
  rw [computeScore_eq, hfull, hsum, if_neg hstr, if_neg hallcond]
  simp

/-- In the no-keyword fallback (the whole question is the only keyword), a
candidate matching zero keywords scores at most 80. -/
theorem computeScore_le_80_of_fallback (q : Str) (d : Doc)
    (hnil : keywordCandidates (lowerStr q) = [])
    (hzero : ∀ kw ∈ extractKeywords q,
      matchKeyword (lowerStr d.pageContent) kw = false) :
    computeScore q d ≤ 80 := by
  have hkws : extractKeywords q = [lowerStr q] := by
    rw [extractKeywords]
    simp [hnil]
  have hqmem : lowerStr q ∈ extractKeywords q := by rw [hkws]; exact List.mem_singleton.mpr rfl
  have hqzero := hzero _ hqmem
  have hfull : strContains (lowerStr d.pageContent) (lowerStr q) = false := by
    cases hfc : strContains (lowerStr d.pageContent) (lowerStr q)
    · rfl
    · rw [matchKeyword_of_contains hfc] at hqzero
      exact hqzero
  have hsum : ((extractKeywords q).map (fun kw =>
      if matchKeyword (lowerStr d.pageContent) kw then
        20 + keywordBonusAt (lowerStr d.pageContent) kw
      else 0)).sum = 0 := by
    rw [hkws]
    simp [hqzero]
  have hcount : (extractKeywords q).countP
      (fun kw => matchKeyword (lowerStr d.pageContent) kw) = 0 := by
    rw [hkws]
    simp [hqzero]
  have hallcond : ¬ ((extractKeywords q).countP
      (fun kw => matchKeyword (lowerStr d.pageContent) kw)
      = (extractKeywords q).length ∧ 0 < (extractKeywords q).length) := by
    rw [hcount, hkws]
    omega
  rw [computeScore_eq, hfull, hsum, if_neg hallcond]
  have hz : (if (false : Bool) = true then 100 else 0) = 0 := rfl
  rw [hz]
  split <;> omega

theorem sum_map_ge_const {α : Type} (l : List α) (f : α → Nat) (m : Nat)
    (h : ∀ x ∈ l, m ≤ f x) : m * l.length ≤ (l.map f).sum := by
  induction l with
  | nil => simp
  | cons x xs ih =>
    simp only [List.map_cons, List.sum_cons, List.length_cons]
    have h1 := h x (List.mem_cons_self _ _)
    have h2 := ih (fun y hy => h y (List.mem_cons.mpr (Or.inr hy)))
    calc m * (xs.length + 1) = m + m * xs.length := by ring
    _ ≤ f x + (xs.map f).sum := Nat.add_le_add h1 h2

/-- A candidate containing every extracted keyword scores at least
`20 * #keywords + 50`. -/
theorem computeScore_ge_of_all_match (q : Str) (d : Doc)
    (hne : keywordCandidates (lowerStr q) ≠ [])
    (hall : ∀ kw ∈ extractKeywords q, kw <:+: lowerStr d.pageContent) :
    20 * (extractKeywords q).length + 50 ≤ computeScore q d := by
  have hmatch : ∀ kw ∈ extractKeywords q,
      matchKeyword (lowerStr d.pageContent) kw = true :=
    fun kw hkw => matchKeyword_of_contains (strContains_iff.mpr (hall kw hkw))
  have hsum : 20 * (extractKeywords q).length ≤ ((extractKeywords q).map (fun kw =>
      if matchKeyword (lowerStr d.pageContent) kw then
        20 + keywordBonusAt (lowerStr d.pageContent) kw
      else 0)).sum := by
    refine sum_map_ge_const _ _ _ ?_
    intro kw hkw
    rw [hmatch kw hkw]
    simp
  have hlenpos : 0 < (extractKeywords q).length := by
    have : extractKeywords q = keywordCandidates (lowerStr q) := by
      rw [extractKeywords]
      simp [hne]
    rw [this]
    exact List.length_pos.mpr hne
  have hcount : (extractKeywords q).countP
      (fun kw => matchKeyword (lowerStr d.pageContent) kw)
      = (extractKeywords q).length := by
    refine List.countP_eq_length.mpr ?_
    intro kw hkw
    simp [hmatch kw hkw]
  rw [computeScore_eq, if_pos (And.intro hcount hlenpos)]
  omega

/-- In the no-keyword fallback, a candidate containing the whole lowered
question scores at least 170. -/
theorem computeScore_ge_170_of_fallback (q : Str) (d : Doc)
    (hnil : keywordCandidates (lowerStr q) = [])
    (hinf : lowerStr q <:+: lowerStr d.pageContent) :
    170 ≤ computeScore q d := by
  have hkws : extractKeywords q = [lowerStr q] := by
    rw [extractKeywords]
    simp [hnil]
  have hfull : strContains (lowerStr d.pageContent) (lowerStr q) = true :=
    strContains_iff.mpr hinf
  have hmatch : matchKeyword (lowerStr d.pageContent) (lowerStr q) = true :=
    matchKeyword_of_contains hfull
  have hsum : 20 ≤ ((extractKeywords q).map (fun kw =>
      if matchKeyword (lowerStr d.pageContent) kw then
        20 + keywordBonusAt (lowerStr d.pageContent) kw
      else 0)).sum := by
    rw [hkws]
    simp [hmatch]
  have hcount : (extractKeywords q).countP
      (fun kw => matchKeyword (lowerStr d.pageContent) kw)
      = (extractKeywords q).length := by
    rw [hkws]
    simp [hmatch]
  have hlenpos : 0 < (extractKeywords q).length := by
    rw [hkws]
    simp
  rw [computeScore_eq, hfull, if_pos (And.intro hcount hlenpos)]
  have h100 : (if (true : Bool) = true then 100 else 0) = 100 := rfl
  rw [h100]
  omega

end Rag

/-- Claim C6: whenever one candidate's (lowered) text contains every extracted
keyword and another candidate matches zero extracted keywords, the first
candidate's re-ranking score — after the original-rank tie-break subtraction —
strictly exceeds the second's.  The candidate list is bounded by 50, the
Retriever's over-fetch cap (rag.go:53-55, 172-174). -/
theorem claim_C6_full_keyword_match_outscores_zero_match
    (q : Str) (cands : List Rag.Doc) (iA iB : Nat)
    (hlen : cands.length ≤ 50) (hiA : iA < cands.length) (hiB : iB < cands.length)
    (hall : ∀ kw ∈ Rag.extractKeywords q,
      kw <:+: lowerStr ((cands.getD iA default).pageContent))
    (hzero : ∀ kw ∈ Rag.extractKeywords q,
      Rag.matchKeyword (lowerStr ((cands.getD iB default).pageContent)) kw = false) :
    ((Rag.mkScoredDocs q cands 0).getD iB default).score
      < ((Rag.mkScoredDocs q cands 0).getD iA default).score := by
  rw [Rag.mkScoredDocs_getD q cands 0 iA hiA, Rag.mkScoredDocs_getD q cands 0 iB hiB]
  dsimp only
  simp only [Nat.zero_add]
  by_cases hnil : Rag.keywordCandidates (lowerStr q) = []
  · have hkws : Rag.extractKeywords q = [lowerStr q] := by
      rw [Rag.extractKeywords]
      simp [hnil]
    have hA : 170 ≤ Rag.computeScore q (cands.getD iA default) := by
      refine Rag.computeScore_ge_170_of_fallback q _ hnil ?_
      refine hall (lowerStr q) ?_
      rw [hkws]
      exact List.mem_singleton.mpr rfl
    have hB : Rag.computeScore q (cands.getD iB default) ≤ 80 :=
      Rag.computeScore_le_80_of_fallback q _ hnil hzero
    omega
  · have hB : Rag.computeScore q (cands.getD iB default) = 0 :=
      Rag.computeScore_eq_zero_of_no_match q _ hnil hzero
    have hA : 20 * (Rag.extractKeywords q).length + 50
        ≤ Rag.computeScore q (cands.getD iA default) :=
      Rag.computeScore_ge_of_all_match q _ hnil hall
    have hkws : Rag.extractKeywords q = Rag.keywordCandidates (lowerStr q) := by
      rw [Rag.extractKeywords]
      simp [hnil]
    have hlen1 : 1 ≤ (Rag.extractKeywords q).length := by
      rw [hkws]
      exact List.length_pos.mpr hnil
    omega

def c6q : Str := "ab".data

def c6docA : Rag.Doc := ⟨"zabz".data, none, none⟩

def c6docB : Rag.Doc := ⟨"xy".data, none, none⟩

def c6cands : List Rag.Doc := [c6docB, c6docA]

/-- Witness for claim C6 at a concrete question and candidate pair. -/
theorem claim_C6_full_keyword_match_outscores_zero_match_witness :
    c6cands.length ≤ 50 ∧
    (∀ kw ∈ Rag.extractKeywords c6q,
      kw <:+: lowerStr ((c6cands.getD 1 default).pageContent)) ∧
    (∀ kw ∈ Rag.extractKeywords c6q,
      Rag.matchKeyword (lowerStr ((c6cands.getD 0 default).pageContent)) kw = false) ∧
    ((Rag.mkScoredDocs c6q c6cands 0).getD 0 default).score
      < ((Rag.mkScoredDocs c6q c6cands 0).getD 1 default).score := by
  refine ⟨by decide, by decide, by decide, ?_⟩
  exact claim_C6_full_keyword_match_outscores_zero_match c6q c6cands 1 0
    (by decide) (by decide) (by decide) (by decide) (by decide)

def c5q : Str := "ab".data

def c5docA : Rag.Doc := ⟨"ab".data, none, none⟩

def c5docB : Rag.Doc := ⟨"xy".data, none, none⟩

def c5cands : List Rag.Doc := [c5docB, c5docA]

/-- Witness for claim C5: a concrete over-full candidate list with a
positively scored candidate yields a non-empty, positive-only selection. -/
theorem claim_C5_reRankResults_positive_sorted_fallback_witness :
    (1 : Nat) ≤ 1 ∧ 1 < c5cands.length ∧
    (∃ d ∈ c5cands, 0 < Rag.computeScore c5q d) ∧
    Rag.reRankResults c5q c5cands 1 ≠ [] ∧
    (∀ d ∈ Rag.reRankResults c5q c5cands 1, 0 < Rag.computeScore c5q d) ∧
    (c5cands ≠ [] → Rag.reRankResults c5q c5cands 1 ≠ []) := by
  have h := claim_C5_reRankResults_positive_sorted_fallback c5q c5cands 1 (by decide)
  have h2 := (h.1 (by decide)).1 (by decide)
  exact ⟨by decide, by decide, by decide, h2.1, h2.2.2.1, h.2⟩

theorem singleton_infix_iff {a : Char} {l : Str} : [a] <:+: l ↔ a ∈ l := by
  constructor
  · intro h
    exact h.subset (List.mem_singleton.mpr rfl)
  · intro h
    obtain ⟨s, t, rfl⟩ := List.append_of_mem h
    exact ⟨s, t, by simp⟩

theorem strContains_append_singleton (ans : Str) (c c' : Char) :
    strContains (ans ++ [c]) [c'] = (strContains ans [c'] || decide (c' = c)) := by
  simp [strContains, singleton_infix_iff, List.mem_append]

namespace Api

/-! ### extractUsedAnnotations (server.go:1650-1666) -/

/-- The circled-digit citation markers of the answer scanner
(server.go:1656). -/
def circleNumbers : List Str :=
  [['①'], ['②'], ['③'], ['④'], ['⑤'], ['⑥'], ['⑦'], ['⑧'], ['⑨'], ['⑩']]

/-- `extractUsedAnnotations` (server.go:1650-1666) viewed as its membership
function: the Go map holds `i+1 ↦ true` exactly for the markers
`circleNumbers[i]` contained in the answer, and any absent key reads as
`false`. -/
def extractUsedAnnotations (answer : Str) (k : Nat) : Bool :=
  (decide (1 ≤ k) && decide (k ≤ 10)) && strContains answer (circleNumbers.getD (k - 1) [])

end Api

/-- Claim C7: citation extraction marks index `k` (1 ≤ k ≤ 10) as used exactly
when the answer contains the `k`-th circled-digit marker, never marks an index
outside 1..10, and appending marker `k` to an answer adds exactly index `k` to
the used set, independent of the other markers present. -/
theorem claim_C7_extractUsedAnnotations_presence_monotone :
    (∀ (answer : Str) (k : Nat), 1 ≤ k → k ≤ 10 →
        (Api.extractUsedAnnotations answer k = true ↔
          (Api.circleNumbers.getD (k - 1) []) <:+: answer)) ∧
    (∀ (answer : Str) (k : Nat), k = 0 ∨ 10 < k →
        Api.extractUsedAnnotations answer k = false) ∧
    (∀ (answer : Str) (k j : Nat), 1 ≤ k → k ≤ 10 →
        Api.extractUsedAnnotations (answer ++ Api.circleNumbers.getD (k - 1) []) j
          = (Api.extractUsedAnnotations answer j || decide (j = k))) := by
  refine ⟨?_, ?_, ?_⟩
  · intro answer k hk1 hk10
    simp [Api.extractUsedAnnotations, hk1, hk10, strContains_iff]
  · intro answer k hk
    have hb : (decide (1 ≤ k) && decide (k ≤ 10)) = false := by
      rcases hk with rfl | h
      · decide
      · have : ¬ k ≤ 10 := by omega
        simp [this]
    simp [Api.extractUsedAnnotations, hb]
  · intro answer k j hk1 hk10
    by_cases hj : 1 ≤ j ∧ j ≤ 10
    · obtain ⟨hj1, hj10⟩ := hj
      interval_cases j <;> interval_cases k <;>
        simp [Api.extractUsedAnnotations, Api.circleNumbers, strContains_append_singleton]
    · have hb : (decide (1 ≤ j) && decide (j ≤ 10)) = false := by
        rcases Nat.lt_or_ge j 1 with h | h
        · have : j = 0 := by omega
          subst this
          decide
        · have : ¬ j ≤ 10 := by omega
          simp [this]
      have hjk : j ≠ k := by omega
      simp [Api.extractUsedAnnotations, hb, hjk]

/-- Witness for claim C7 at concrete answers and indices. -/
theorem claim_C7_extractUsedAnnotations_presence_monotone_witness :
    (Api.extractUsedAnnotations "①③".data 1 = true ↔
      (Api.circleNumbers.getD 0 []) <:+: "①③".data) ∧
    Api.extractUsedAnnotations "①③".data 11 = false ∧
    Api.extractUsedAnnotations ("①③".data ++ Api.circleNumbers.getD 1 []) 2
      = (Api.extractUsedAnnotations "①③".data 2 || decide (2 = 2)) := by
  have h := claim_C7_extractUsedAnnotations_presence_monotone
  exact ⟨h.1 "①③".data 1 (by decide) (by decide),
    h.2.1 "①③".data 11 (Or.inr (by decide)),
    h.2.2 "①③".data 2 2 (by decide) (by decide)⟩

namespace Rag

/-! ### buildPrompt (rag.go:285-349) -/

/-- The fixed instruction header of `buildPrompt` (rag.go:291-312), one string
per `WriteString` call. -/
def promptHeader : Str :=
  ("你是一个专业的AI助手。请基于以下上下文信息，**深入思考和分析**后回答问题。\n\n"
    ++ "**核心要求**：\n"
    ++ "1. **严格相关性检查**：只使用与问题真正相关的文档片段。如果某个文档片段与问题无关，请忽略它，不要使用其中的信息\n"
    ++ "2. **必须进行思考和总结**：不要直接复制粘贴文档片段的内容，而是要对信息进行理解、分析和组织\n"
    ++ "3. **回答要有逻辑性**：将多个文档片段的信息整合成连贯、有条理的回答\n"
    ++ "4. **回答要完整**：如果问题涉及多个方面，要全面回答，不要遗漏重要信息\n"
    ++ "5. **只基于提供的上下文信息回答问题**，不要编造或推测信息\n"
    ++ "6. **如果上下文中没有相关信息或所有文档片段都与问题无关**，请明确说明\"根据提供的上下文，我无法找到相关信息\"，不要强行使用不相关的片段\n"
    ++ "6. **必须遵守**：在回答中，每当你引用或提到文档片段中的内容时，必须在引用内容的末尾立即添加对应的文档编号标注\n"
    ++ "   - 引用文档片段1的内容，在引用内容末尾添加①\n"
    ++ "   - 引用文档片段2的内容，在引用内容末尾添加②\n"
    ++ "   - 引用文档片段3的内容，在引用内容末尾添加③\n"
    ++ "   - 以此类推\n"
    ++ "   - 如果一段内容来自多个文档片段，可以添加多个编号，如①②\n"
    ++ "   - **重要**：直接回答问题，不要在答案中添加\"根据文档片段X\"、\"文档片段X提到\"等前缀\n"
    ++ "   - **示例**：如果文档片段1提到\"培训要求包括3项\"，你的回答应该是：\"培训要求包括3项①\"，而不是\"根据文档片段1，培训要求包括3项①\"\n"
    ++ "   - **重要**：每个引用都必须有标注，没有标注的引用是不被允许的\n\n"
    ++ "**回答格式要求**：\n"
    ++ "- 回答应该是完整的、有逻辑的段落或列表，而不是简单的文档片段拼接\n"
    ++ "- 如果问题需要多个方面的回答，请分点或分段说明\n"
    ++ "- 回答要自然流畅，读起来像是一个专业助手在回答问题\n\n"
    ++ "上下文信息：\n").data

/-- One numbered passage block of `buildPrompt` (rag.go:316-331): header line
with the 1-based number and its circled-digit marker, the passage body
truncated to the 800-byte budget, and the optional source line. -/
def promptDocSegment (i : Nat) (d : Doc) : Str :=
  "\n[文档片段 ".data ++ (Nat.repr (i + 1)).data ++ "] ".data
    ++ getCircleNumber (i + 1) ++ "\n".data
    ++ (if 800 < utf8Len d.pageContent then takeBytes 800 d.pageContent ++ "...".data
        else d.pageContent)
    ++ "\n".data
    ++ (match d.source with
        | some src => "来源: ".data ++ src ++ "\n".data
        | none => [])

/-- The fixed instruction footer of `buildPrompt` (rag.go:333-346). -/
def promptFooter (question : Str) : Str :=
  "\n问题: ".data ++ question
    ++ ("\n\n**请仔细阅读上述上下文信息，深入思考和分析后，组织成完整、有条理的回答。**\n"
    ++ "\n**重要提示**：\n"
    ++ "- **首先检查每个文档片段是否与问题相关**：只使用真正相关的片段，忽略不相关的片段\n"
    ++ "- 不要直接复制粘贴文档片段，要对信息进行理解和整合\n"
    ++ "- 回答要完整、有逻辑，读起来像是一个专业助手在回答问题\n"
    ++ "- 每当你引用文档片段中的任何内容时，必须在引用内容的末尾添加对应的文档编号标注（①、②、③等）\n"
    ++ "- 如果没有添加标注，你的回答将被视为不完整\n"
    ++ "- **重要**：直接回答问题，不要添加\"根据文档片段X\"、\"文档片段X提到\"等前缀\n"
    ++ "- 示例格式：\"培训要求包括：提供系统管理员培训不少于3天①\"（正确）\n"
    ++ "- 错误示例：\"根据文档片段1，培训要求包括：提供系统管理员培训不少于3天①\"（错误，不要添加前缀）\n"
    ++ "- **如果所有文档片段都与问题无关，请明确说明\"根据提供的上下文，我无法找到相关信息\"，不要强行使用不相关的信息**\n"
    ++ "\n现在请**首先检查每个文档片段的相关性**，然后**深入思考和分析**真正相关的上下文信息，最后组织成完整、有条理的回答，确保所有引用都包含文档编号标注：\n").data

/-- `buildPrompt` (rag.go:285-349): header, one numbered block per passage in
list order, footer with the question. -/
def buildPrompt (question : Str) (results : List Doc) : Str :=
  promptHeader
    ++ (results.enum.map (fun p => promptDocSegment p.1 p.2)).flatten
    ++ promptFooter question

/-! ### QueryWithResults (rag.go:156-283) -/

/-- Failures of the Generator contract: the 120s deadline or a provider
error. -/
inductive GenError where
  | timeout : GenError
  | failure : Str → GenError
deriving DecidableEq, Repr

/-- The `QueryResult` record (rag.go:151-154). -/
structure QueryResult where
  answer : Str
  results : List Doc
deriving DecidableEq, Repr

/-- The empty-result sentinel answer (rag.go:196). -/
def apologyAnswer : Str := "抱歉，我在知识库中没有找到相关信息。".data

/-- `QueryWithResults` (rag.go:156-283) from the point the search results are
in hand: re-rank, filter, and either return the apology sentinel with an
empty result list, or build the prompt and call the Generator.  The vector
search (`store.Search`, an external contract) is abstracted as the
`allResults` argument and the Generator as `generate`. -/
def queryWithResults (question : Str) (allResults : List Doc) (topK : Nat)
    (generate : Str → Except GenError Str) : Except GenError QueryResult :=
  let results := filterRelevantResults question (reRankResults question allResults topK)
  if results.length = 0 then
    Except.ok ⟨apologyAnswer, []⟩
  else
    match generate (buildPrompt question results) with
    | Except.ok answer => Except.ok ⟨answer, results⟩
    | Except.error e => Except.error e

end Rag

namespace Api

/-! ### handleQuery attribution grouping (server.go:871-1042) -/

/-- One emitted passage record (the `result` map of server.go:967-974). -/
structure Chunk where
  content : Str
  pageContent : Str
  index : Nat
  source : Str
  title : Str
  preview : Str
deriving DecidableEq, Inhabited, Repr

/-- The `DocGroup` record (server.go:44-52). -/
structure DocGroup where
  docTitle : Str
  docSource : Str
  sourceType : Str
  fileType : Str
  fileID : Str
  chunks : List Chunk
  hasPublicForm : Bool
deriving DecidableEq, Inhabited, Repr

/-- `extractOriginalFilename` (server.go:1619-1648): strip a 36-character
UUID-format prefix (five dash-separated parts) followed by an underscore. -/
def extractOriginalFilename (filename : Str) : Str :=
  if filename = [] then []
  else
    let underscoreIndex := filename.indexOf '_'
    if 0 < underscoreIndex ∧ underscoreIndex < filename.length then
      let prefixPart := filename.take underscoreIndex
      if prefixPart.length = 36 ∧ prefixPart.contains '-' ∧
          (prefixPart.splitOn '-').length = 5 then
        let originalName := filename.drop (underscoreIndex + 1)
        if originalName ≠ [] then originalName else filename
      else filename
    else filename

/-- Go's `filepath.Base` (standard library, external): the last non-empty
slash-separated component, here defaulting to the input itself. -/
def filepathBase (p : Str) : Str :=
  ((p.splitOn '/').filter (fun part => part != [])).getLastD p

/-- Go's `filepath.Ext` (standard library, external): the suffix from the
final dot, empty when there is no dot. -/
def filepathExt (p : Str) : Str :=
  if p.contains '.' then '.' :: (p.reverse.takeWhile (fun c => c != '.')).reverse
  else []

/-- The metadata derivation of server.go:915-955: title, source, source type,
file type and fileID from the `source` and `file_name` metadata. -/
def mkChunkMeta (d : Rag.Doc) : Str × Str × Str × Str × Str :=
  let (docTitle0, docSource, sourceType, fileType0, fileID0) :=
    match d.source with
    | some source =>
        if "http://".data.isPrefixOf source || "https://".data.isPrefixOf source then
          (source, source, "url".data, ([] : Str), ([] : Str))
        else
          let baseName := filepathBase source
          let docTitle := extractOriginalFilename baseName
          let fileID :=
            let ui := baseName.indexOf '_'
            if 0 < ui ∧ ui < baseName.length then baseName.take ui else []
          let ext := lowerStr (filepathExt docTitle)
          let fileType := if ext ≠ [] then ext.drop 1 else []
          (docTitle, source, "file".data, fileType, fileID)
    | none => ([], [], [], [], [])
  let (docTitle1, fileType1, fileID1) :=
    match d.fileName with
    | some fn =>
        if fn ≠ [] then
          let originalFileName := extractOriginalFilename fn
          let t := if originalFileName ≠ [] then originalFileName else docTitle0
          let fid :=
            let ui := fn.indexOf '_'
            if 0 < ui ∧ ui < fn.length then fn.take ui else fileID0
          let ext := lowerStr (filepathExt originalFileName)
          let ft := if ext ≠ [] then ext.drop 1 else fileType0
          (t, ft, fid)
        else (docTitle0, fileType0, fileID0)
    | none => (docTitle0, fileType0, fileID0)
  (docTitle1, docSource, sourceType, fileType1, fileID1)

/-- The per-passage enrichment of server.go:904-998 for the passage at 1-based
position `idx1`: the passage record (with `index = idx1`), the group key
(source, or title if no source) and the one-chunk group stub. -/
def mkChunkData (idx1 : Nat) (d : Rag.Doc) : Str × Chunk × DocGroup :=
  let m := mkChunkMeta d
  let docTitle := if m.1 = [] then "未命名文档".data else m.1
  let docSource := m.2.1
  let preview :=
    if 200 < utf8Len d.pageContent then takeBytes 200 d.pageContent ++ "...".data
    else d.pageContent
  let chunk : Chunk := ⟨d.pageContent, d.pageContent, idx1, docSource, docTitle, preview⟩
  let groupKey := if docSource ≠ [] then docSource else docTitle
  (groupKey, chunk,
    ⟨docTitle, docSource, m.2.2.1, m.2.2.2.1, m.2.2.2.2, [chunk], false⟩)

/-- The fan-out of server.go:897-999: one emission per passage whose 1-based
index the citation extraction marked as used. -/
def fanOut (used : Nat → Bool) : List Rag.Doc → Nat → List (Str × Chunk × DocGroup)
  | [], _ => []
  | d :: ds, i =>
    (if used (i + 1) then [mkChunkData (i + 1) d] else []) ++ fanOut used ds (i + 1)

/-- The guarded merge of the collector (server.go:1015-1035): append the chunk
to an existing group with the same key, back-filling empty `fileType`/`fileID`
fields, or start a new group. -/
def insertResult (acc : List (Str × DocGroup)) (item : Str × Chunk × DocGroup) :
    List (Str × DocGroup) :=
  match acc.lookup item.1 with
  | none => acc ++ [(item.1, item.2.2)]
  | some _ =>
      acc.map (fun kv =>
        if kv.1 == item.1 then
          (kv.1, { kv.2 with
            fileType := if item.2.2.fileType ≠ [] ∧ kv.2.fileType = [] then
                item.2.2.fileType
              else kv.2.fileType,
            fileID := if item.2.2.fileID ≠ [] ∧ kv.2.fileID = [] then
                item.2.2.fileID
              else kv.2.fileID,
            chunks := kv.2.chunks ++ [item.2.1] })
        else kv)

/-- Drain the fan-in stream in some arrival order and merge into groups
(server.go:1007-1035). -/
def collectGroups (items : List (Str × Chunk × DocGroup)) : List DocGroup :=
  (items.foldl insertResult []).map (fun kv => kv.2)

/-- The whole attribution-grouping stage in emission order.  The concurrent
collector merges in an arbitrary arrival order; the claim C2 theorem
quantifies over every permutation of the emissions. -/
def buildDocGroups (used : Nat → Bool) (results : List Rag.Doc) : List DocGroup :=
  collectGroups (fanOut used results 0)

end Api

namespace Api

theorem mkChunkData_chunk_index (idx1 : Nat) (d : Rag.Doc) :
    (mkChunkData idx1 d).2.1.index = idx1 := rfl

theorem mkChunkData_stub_chunks (idx1 : Nat) (d : Rag.Doc) :
    (mkChunkData idx1 d).2.2.chunks = [(mkChunkData idx1 d).2.1] := rfl

theorem fanOut_mem (used : Nat → Bool) :
    ∀ (ds : List Rag.Doc) (i0 : Nat) (item : Str × Chunk × DocGroup),
      item ∈ fanOut used ds i0 →
      ∃ j, j < ds.length ∧ used (i0 + j + 1) = true ∧
        item = mkChunkData (i0 + j + 1) (ds.getD j default) := by
  intro ds
  induction ds with
  | nil => intro i0 item h; simp [fanOut] at h
  | cons d rest ih =>
    intro i0 item h
    rw [fanOut] at h
    rcases List.mem_append.mp h with h1 | h2
    · by_cases hu : used (i0 + 1) = true
      · rw [if_pos hu] at h1
        rcases List.mem_singleton.mp h1 with rfl
        exact ⟨0, by simp, by simpa using hu, by simp⟩
      · rw [if_neg hu] at h1
        simp at h1
    · obtain ⟨j, hj, hu, heq⟩ := ih (i0 + 1) item h2
      refine ⟨j + 1, by simpa using hj, ?_, ?_⟩
      · have : i0 + (j + 1) + 1 = i0 + 1 + j + 1 := by omega
        rw [this]
        exact hu
      · have : i0 + (j + 1) + 1 = i0 + 1 + j + 1 := by omega
        rw [this, heq]
        simp

theorem insertResult_inv (Q : Chunk → Prop) (acc : List (Str × DocGroup))
    (item : Str × Chunk × DocGroup)
    (hacc : ∀ kv ∈ acc, ∀ c ∈ kv.2.chunks, Q c)
    (hitem : ∀ c ∈ item.2.2.chunks, Q c) (hc : Q item.2.1) :
    ∀ kv ∈ insertResult acc item, ∀ c ∈ kv.2.chunks, Q c := by
  intro kv hkv c hcm
  rw [insertResult] at hkv
  cases hl : (acc.lookup item.1) with
  | none =>
    rw [hl] at hkv
    rcases List.mem_append.mp hkv with h1 | h2
    · exact hacc kv h1 c hcm
    · rcases List.mem_singleton.mp h2 with rfl
      exact hitem c hcm
  | some g0 =>
    rw [hl] at hkv
    obtain ⟨kv', hkv', heq⟩ := List.mem_map.mp hkv
    by_cases hkey : (kv'.1 == item.1) = true
    · rw [if_pos hkey] at heq
      subst heq
      simp only at hcm
      rcases List.mem_append.mp hcm with h1 | h2
      · exact hacc kv' hkv' c h1
      · rcases List.mem_singleton.mp h2 with rfl
        exact hc
    · rw [if_neg hkey] at heq
      subst heq
      exact hacc kv' hkv' c hcm

theorem foldl_insert_inv (Q : Chunk → Prop) :
    ∀ (items : List (Str × Chunk × DocGroup)) (acc : List (Str × DocGroup)),
      (∀ kv ∈ acc, ∀ c ∈ kv.2.chunks, Q c) →
      (∀ item ∈ items, Q item.2.1 ∧ ∀ c ∈ item.2.2.chunks, Q c) →
      ∀ kv ∈ items.foldl insertResult acc, ∀ c ∈ kv.2.chunks, Q c := by
  intro items
  induction items with
  | nil => intro acc hacc _; simpa using hacc
  | cons item rest ih =>
    intro acc hacc hitems
    rw [List.foldl_cons]
    refine ih (insertResult acc item) ?_ ?_
    · exact insertResult_inv Q acc item hacc
        (hitems item (List.mem_cons_self _ _)).2
        (hitems item (List.mem_cons_self _ _)).1
    · intro it hit
      exact hitems it (List.mem_cons.mpr (Or.inr hit))

end Api

/-- Claim C2: in any arrival order of the concurrently emitted passage
records, every chunk of every assembled document group carries as its `index`
field the 1-based position of its passage in the passage list sent to the
Generator (the same `results` list `buildPrompt` numbers), it was marked used
by the citation extraction, and it is exactly the enrichment of the passage at
that position; moreover `buildPrompt`'s marker for position `k` is the very
marker the extractor tests for index `k`. -/
theorem claim_C2_chunk_index_is_passage_position :
    (∀ (used : Nat → Bool) (results : List Rag.Doc)
        (items : List (Str × Api.Chunk × Api.DocGroup)),
      List.Perm items (Api.fanOut used results 0) →
      ∀ g ∈ Api.collectGroups items, ∀ c ∈ g.chunks,
        ∃ i, i < results.length ∧ c.index = i + 1 ∧ used (i + 1) = true ∧
          c = (Api.mkChunkData (i + 1) (results.getD i default)).2.1) ∧
    (∀ k, 1 ≤ k → k ≤ 10 →
      Rag.getCircleNumber k = Api.circleNumbers.getD (k - 1) []) := by
  constructor
  · intro used results items hperm g hg c hcm
    have hQ : ∀ item ∈ items,
        (∃ i, i < results.length ∧ item.2.1.index = i + 1 ∧ used (i + 1) = true ∧
          item.2.1 = (Api.mkChunkData (i + 1) (results.getD i default)).2.1) ∧
        ∀ c' ∈ item.2.2.chunks,
          ∃ i, i < results.length ∧ c'.index = i + 1 ∧ used (i + 1) = true ∧
            c' = (Api.mkChunkData (i + 1) (results.getD i default)).2.1 := by
      intro item hitem
      have hmem : item ∈ Api.fanOut used results 0 := hperm.mem_iff.mp hitem
      obtain ⟨j, hj, hu, heq⟩ := Api.fanOut_mem used results 0 item hmem
      simp only [Nat.zero_add] at hu heq
      constructor
      · exact ⟨j, hj, by rw [heq, Api.mkChunkData_chunk_index], hu, by rw [heq]⟩
      · intro c' hc'
        rw [heq, Api.mkChunkData_stub_chunks] at hc'
        rcases List.mem_singleton.mp hc' with rfl
        exact ⟨j, hj, Api.mkChunkData_chunk_index _ _, hu, rfl⟩
    have := Api.foldl_insert_inv
      (fun c' => ∃ i, i < results.length ∧ c'.index = i + 1 ∧ used (i + 1) = true ∧
        c' = (Api.mkChunkData (i + 1) (results.getD i default)).2.1)
      items [] (by simp) hQ
    rw [Api.collectGroups] at hg
    obtain ⟨kv, hkv, rfl⟩ := List.mem_map.mp hg
    exact this kv hkv c hcm
  · intro k hk1 hk10
    interval_cases k <;> rfl

def c2used (k : Nat) : Bool := decide (k = 1)

def c2results : List Rag.Doc := [⟨"hello".data, some "dir/f.txt".data, none⟩]

def c2group : Api.DocGroup :=
  (Api.collectGroups (Api.fanOut c2used c2results 0)).getD 0 default

def c2chunk : Api.Chunk := c2group.chunks.getD 0 default

/-- Witness for claim C2 at a concrete one-passage list with index 1 used. -/
theorem claim_C2_chunk_index_is_passage_position_witness :
    c2group ∈ Api.collectGroups (Api.fanOut c2used c2results 0) ∧
    c2chunk ∈ c2group.chunks ∧
    (∃ i, i < c2results.length ∧ c2chunk.index = i + 1 ∧ c2used (i + 1) = true ∧
      c2chunk = (Api.mkChunkData (i + 1) (c2results.getD i default)).2.1) := by
  refine ⟨by decide, by decide, ?_⟩
  exact claim_C2_chunk_index_is_passage_position.1 c2used c2results _
    (List.Perm.refl _) c2group (by decide) c2chunk (by decide)

/-- Claim C1: when the re-rank/relevance-filter stages leave zero passages,
`QueryWithResults` returns the fixed apology sentinel with an empty result
list without invoking the Generator, and the attribution stage built from the
apology answer over the empty result list yields no document groups. -/
theorem claim_C1_zero_passages_apology
    (question : Str) (cands : List Rag.Doc) (topK : Nat)
    (generate : Str → Except Rag.GenError Str)
    (h : Rag.filterRelevantResults question (Rag.reRankResults question cands topK) = []) :
    Rag.queryWithResults question cands topK generate
        = Except.ok ⟨Rag.apologyAnswer, []⟩ ∧
    Api.buildDocGroups (Api.extractUsedAnnotations Rag.apologyAnswer) [] = [] := by
  constructor
  · rw [Rag.queryWithResults]
    simp only [h]
    simp
  · rfl

def c1q : Str := "a".data

def c1gen : Str → Except Rag.GenError Str := fun _ => Except.ok []

/-- Witness for claim C1 at an empty candidate list. -/
theorem claim_C1_zero_passages_apology_witness :
    Rag.filterRelevantResults c1q (Rag.reRankResults c1q [] 3) = [] ∧
    (Rag.queryWithResults c1q [] 3 c1gen = Except.ok ⟨Rag.apologyAnswer, []⟩ ∧
      Api.buildDocGroups (Api.extractUsedAnnotations Rag.apologyAnswer) [] = []) :=
  ⟨rfl, claim_C1_zero_passages_apology c1q [] 3 c1gen rfl⟩

namespace Api

/-! ### checkPublicForm, the check queue and the async workers
(server.go:168-181, 1049-1108, 2140-2254) -/

/-- The long-lived shared state of the classification service: the
`publicFormCache` (fileID → verdict) and the bounded `checkQueue`. -/
structure CheckSystem where
  cache : Str → Option Bool
  queue : List DocGroup

/-- The queue capacity fixed in `NewServer` (server.go:179:
`make(chan *DocGroup, 100)`). -/
def checkQueueCapacity : Nat := 100

/-- The eligibility allow-list (server.go:1051-1052, 2178-2179): only
pdf/doc/docx/txt documents are checked. -/
def isCheckedFileType (ft : Str) : Bool :=
  lowerStr ft == "pdf".data || lowerStr ft == "doc".data ||
    lowerStr ft == "docx".data || lowerStr ft == "txt".data

/-- The request-path check `checkPublicForm` (server.go:1049-1108): ineligible
types return untouched; a cached verdict is copied into the group with no file
access and no queue interaction; otherwise a task is enqueued when the queue
has room (after the 500ms wait the cache is read again, modelled by
`cacheAfterWait`, falling back to `false`), and a full queue drops the task
and uses the fail-safe default `false`.  An empty `fileID` also defaults to
`false`.  The request path never touches the file store: reading happens only
in `workerVerdict`. -/
def checkPublicForm (g : DocGroup) (sys : CheckSystem)
    (cacheAfterWait : Str → Option Bool) : DocGroup × CheckSystem :=
  if ¬ isCheckedFileType g.fileType then (g, sys)
  else if g.fileID = [] then ({ g with hasPublicForm := false }, sys)
  else
    match sys.cache g.fileID with
    | some v => ({ g with hasPublicForm := v }, sys)
    | none =>
        if sys.queue.length < checkQueueCapacity then
          let sys' := { sys with queue := sys.queue ++ [g] }
          match cacheAfterWait g.fileID with
          | some v2 => ({ g with hasPublicForm := v2 }, sys')
          | none => ({ g with hasPublicForm := false }, sys')
        else ({ g with hasPublicForm := false }, sys)

/-- `checkPublicFormAsync` (server.go:2177-2254): the verdict a worker
computes for a dequeued group.  Path resolution and reading the last ~100
characters of the file go through the external FileStore contract, abstracted
as `readLastPart : fileID → Option content`; a missing file or failed read
leaves the content empty and the verdict `false`. -/
def workerVerdict (readLastPart : Str → Option Str) (g : DocGroup) : Bool :=
  if ¬ isCheckedFileType g.fileType then false
  else if g.fileID = [] then false
  else
    match readLastPart g.fileID with
    | none => false
    | some contentToCheck => checkPublicFormInContent contentToCheck

/-- One iteration of an async check worker (server.go:2142-2173): dequeue a
task, compute its verdict, and store it in the cache keyed by `fileID` (only
when the `fileID` is non-empty). -/
def workerStep (readLastPart : Str → Option Str) (sys : CheckSystem) : CheckSystem :=
  match sys.queue with
  | [] => sys
  | g :: rest =>
      if g.fileID ≠ [] then
        { cache := fun k =>
            if k = g.fileID then some (workerVerdict readLastPart g) else sys.cache k,
          queue := rest }
      else { sys with queue := rest }

end Api

/-- Claim C3: a cached verdict is copied verbatim into the group with the
whole system (queue and cache) untouched — no task is enqueued and, since the
request path has no file-store access at all, no file I/O happens; and once a
worker has classified and cached a `fileID`, any subsequent query whose group
references that `fileID` observes exactly the worker's verdict, again without
enqueuing (hence without any re-read by a worker). -/
theorem claim_C3_cache_hit_verbatim_no_requeue :
    (∀ (g : Api.DocGroup) (sys : Api.CheckSystem) (cw : Str → Option Bool) (v : Bool),
      Api.isCheckedFileType g.fileType = true → g.fileID ≠ [] →
      sys.cache g.fileID = some v →
      Api.checkPublicForm g sys cw = ({ g with hasPublicForm := v }, sys)) ∧
    (∀ (readLastPart : Str → Option Str) (sys : Api.CheckSystem)
        (g0 g : Api.DocGroup) (cw : Str → Option Bool) (rest : List Api.DocGroup),
      sys.queue = g0 :: rest → g0.fileID ≠ [] → g.fileID = g0.fileID →
      Api.isCheckedFileType g.fileType = true →
      Api.checkPublicForm g (Api.workerStep readLastPart sys) cw
        = ({ g with hasPublicForm := Api.workerVerdict readLastPart g0 },
           Api.workerStep readLastPart sys)) := by
  constructor
  · intro g sys cw v hEl hid hc
    simp [Api.checkPublicForm, hEl, hid, hc]
  · intro readLastPart sys g0 g cw rest hq hid0 hid hEl
    have hcache : (Api.workerStep readLastPart sys).cache g.fileID
        = some (Api.workerVerdict readLastPart g0) := by
      rw [Api.workerStep, hq]
      dsimp only
      rw [if_pos hid0]
      simp [hid]
    have hgid : g.fileID ≠ [] := by
      rw [hid]
      exact hid0
    simp [Api.checkPublicForm, hEl, hgid, hcache]

def c3g : Api.DocGroup := ⟨"t".data, "s".data, "file".data, "txt".data, "f".data, [], false⟩

def c3sys : Api.CheckSystem := ⟨fun k => if k = "f".data then some true else none, []⟩

def c3cw : Str → Option Bool := fun _ => none

/-- Witness for claim C3: a concrete eligible group with a cached verdict. -/
theorem claim_C3_cache_hit_verbatim_no_requeue_witness :
    Api.isCheckedFileType c3g.fileType = true ∧ c3g.fileID ≠ [] ∧
    c3sys.cache c3g.fileID = some true ∧
    Api.checkPublicForm c3g c3sys c3cw = ({ c3g with hasPublicForm := true }, c3sys) := by
  refine ⟨by decide, by decide, rfl, ?_⟩
  exact claim_C3_cache_hit_verbatim_no_requeue.1 c3g c3sys c3cw true
    (by decide) (by decide) rfl

/-- Claim C4: with an eligible group, a non-empty `fileID`, no cached verdict
and a full check queue (capacity 100), the non-blocking send drops the task —
the queue and the cache are left exactly as they were, so the default applies
to this request only — and the group's flag is set to the fail-safe default
`false` while the request-path function returns normally. -/
theorem claim_C4_queue_full_drops_task_fail_safe
    (g : Api.DocGroup) (sys : Api.CheckSystem) (cw : Str → Option Bool)
    (hEl : Api.isCheckedFileType g.fileType = true) (hid : g.fileID ≠ [])
    (hmiss : sys.cache g.fileID = none)
    (hfull : Api.checkQueueCapacity ≤ sys.queue.length) :
    Api.checkPublicForm g sys cw = ({ g with hasPublicForm := false }, sys) := by
  simp [Api.checkPublicForm, hEl, hid, hmiss, Nat.not_lt.mpr hfull]

def c4sys : Api.CheckSystem := ⟨fun _ => none, List.replicate 100 default⟩

/-- Witness for claim C4: a concrete eligible group against a full queue. -/
theorem claim_C4_queue_full_drops_task_fail_safe_witness :
    Api.isCheckedFileType c3g.fileType = true ∧ c3g.fileID ≠ [] ∧
    c4sys.cache c3g.fileID = none ∧
    Api.checkQueueCapacity ≤ c4sys.queue.length ∧
    Api.checkPublicForm c3g c4sys c3cw = ({ c3g with hasPublicForm := false }, c4sys) := by
  have hfull : Api.checkQueueCapacity ≤ c4sys.queue.length := by
    simp [c4sys, Api.checkQueueCapacity]
  refine ⟨by decide, by decide, rfl, hfull, ?_⟩
  exact claim_C4_queue_full_drops_task_fail_safe c3g c4sys c3cw
    (by decide) (by decide) rfl hfull

namespace Api

/-! ### Response size limiting (server.go:1318-1358) -/

def maxDocGroups : Nat := 50

def maxChunksPerGroup : Nat := 20

def maxChunkContentLength : Nat := 2000

/-- The per-field truncation of server.go:1344-1352: contents longer than the
2000-byte budget are cut to the budget and suffixed with an ellipsis. -/
def truncateContent (s : Str) : Str :=
  if maxChunkContentLength < utf8Len s then
    takeBytes maxChunkContentLength s ++ "...".data
  else s

def limitChunk (c : Chunk) : Chunk :=
  { c with content := truncateContent c.content,
           pageContent := truncateContent c.pageContent }

/-- The response-limiting pass of server.go:1318-1358: keep at most 50 groups,
at most 20 chunks per group, and truncate each chunk's `content` and
`pageContent`. -/
def limitResponse (docGroups : List DocGroup) : List DocGroup :=
  (docGroups.take maxDocGroups).map (fun g =>
    { g with chunks := (g.chunks.take maxChunksPerGroup).map limitChunk })

end Api

theorem utf8Len_append (a b : Str) : utf8Len (a ++ b) = utf8Len a + utf8Len b := by
  simp [utf8Len]

theorem utf8Len_replicate_a (n : Nat) : utf8Len (List.replicate n 'a') = n := by
  have h1 : Char.utf8Size 'a' = 1 := by decide
  simp [utf8Len, List.map_replicate, h1, List.sum_replicate]

theorem takeBytes_replicate_a (n m : Nat) :
    takeBytes n (List.replicate m 'a') = List.replicate (min n m) 'a' := by
  induction m generalizing n with
  | zero => simp [takeBytes]
  | succ m ih =>
    cases n with
    | zero =>
      simp only [List.replicate_succ, takeBytes]
      have h1 : Char.utf8Size 'a' = 1 := by decide
      rw [h1]
      simp
    | succ n =>
      simp only [List.replicate_succ, takeBytes]
      have h1 : Char.utf8Size 'a' = 1 := by decide
      rw [h1, if_pos (by omega : 1 ≤ n + 1)]
      rw [ih]
      have : n + 1 - 1 = n := by omega
      rw [this, Nat.succ_min_succ, List.replicate_succ]

theorem truncateContent_le (s : Str) : utf8Len (Api.truncateContent s) ≤ 2003 := by
  rw [Api.truncateContent]
  split
  · rw [utf8Len_append]
    have h1 := utf8Len_takeBytes_le Api.maxChunkContentLength s
    have h2 : utf8Len "...".data = 3 := by decide
    rw [h2]
    have : Api.maxChunkContentLength = 2000 := rfl
    omega
  · rename_i h
    rw [Api.maxChunkContentLength] at h
    omega

def c9chunk : Api.Chunk := ⟨List.replicate 2001 'a', [], 1, [], [], []⟩

def c9group : Api.DocGroup := ⟨[], [], [], [], [], [c9chunk], false⟩

/-- Counterexample to claim C9 as stated: a chunk of 2001 bytes comes out of
the limiting pass with 2003 bytes (2000 retained plus the 3-byte ellipsis),
exceeding the stated 2000-character budget. -/
theorem claim_C9_truncation_exceeds_budget_counterexample :
    utf8Len ((((Api.limitResponse [c9group]).getD 0 default).chunks.getD 0
        default).content) = 2003 ∧
    ¬ (∀ g ∈ Api.limitResponse [c9group], ∀ c ∈ g.chunks,
        utf8Len c.content ≤ 2000) := by
  have h1 : Api.truncateContent (List.replicate 2001 'a')
      = List.replicate 2000 'a' ++ "...".data := by
    rw [Api.truncateContent, if_pos]
    · rw [Api.maxChunkContentLength, takeBytes_replicate_a]
      norm_num
    · rw [utf8Len_replicate_a, Api.maxChunkContentLength]
      omega
  have h2 : utf8Len (List.replicate 2000 'a' ++ "...".data) = 2003 := by
    rw [utf8Len_append, utf8Len_replicate_a]
    have h3 : utf8Len "...".data = 3 := by decide
    omega
  have h4 : Api.limitResponse [c9group]
      = [{ c9group with chunks := [Api.limitChunk c9chunk] }] := by
    simp [Api.limitResponse, Api.maxDocGroups, Api.maxChunksPerGroup, c9group]
  have hcc : c9chunk.content = List.replicate 2001 'a' := rfl
  have h5 : (Api.limitChunk c9chunk).content
      = List.replicate 2000 'a' ++ "...".data := by
    rw [Api.limitChunk]
    dsimp only
    rw [hcc, h1]
  constructor
  · rw [h4]
    simp only [List.getD_cons_zero]
    rw [h5, h2]
  · intro hAll
    have := hAll { c9group with chunks := [Api.limitChunk c9chunk] }
      (by rw [h4]; exact List.mem_singleton.mpr rfl)
      (Api.limitChunk c9chunk) (List.mem_singleton.mpr rfl)
    rw [h5, h2] at this
    omega

/-- Claim C9 as amended: the limited response has at most 50 groups, each with
at most 20 chunks, and each chunk's `content` and `pageContent` are at most
2000 bytes of retained text plus the 3-byte ellipsis — 2003 bytes in all. -/
theorem claim_C9_response_caps_amended (docGroups : List Api.DocGroup) :
    (Api.limitResponse docGroups).length ≤ 50 ∧
    ∀ g ∈ Api.limitResponse docGroups,
      g.chunks.length ≤ 20 ∧
      ∀ c ∈ g.chunks,
        utf8Len c.content ≤ 2003 ∧ utf8Len c.pageContent ≤ 2003 := by
  constructor
  · rw [Api.limitResponse]
    simp only [List.length_map, List.length_take]
    rw [Api.maxDocGroups]
    omega
  · intro g hg
    rw [Api.limitResponse] at hg
    obtain ⟨g0, _, rfl⟩ := List.mem_map.mp hg
    constructor
    · simp only [List.length_map, List.length_take]
      rw [Api.maxChunksPerGroup]
      omega
    · intro c hc
      simp only at hc
      obtain ⟨c0, _, rfl⟩ := List.mem_map.mp hc
      exact ⟨truncateContent_le _, truncateContent_le _⟩

def c9small : Api.DocGroup :=
  ⟨[], [], [], [], [], [⟨"ab".data, "ab".data, 1, [], [], "ab".data⟩], false⟩

def c9smallG : Api.DocGroup := (Api.limitResponse [c9small]).getD 0 default

def c9smallC : Api.Chunk := c9smallG.chunks.getD 0 default

/-- Witness for the amended claim C9 at a concrete small response. -/
theorem claim_C9_response_caps_amended_witness :
    c9smallG ∈ Api.limitResponse [c9small] ∧ c9smallC ∈ c9smallG.chunks ∧
    c9smallG.chunks.length ≤ 20 ∧
    utf8Len c9smallC.content ≤ 2003 ∧ utf8Len c9smallC.pageContent ≤ 2003 := by
  have h := claim_C9_response_caps_amended [c9small]
  have h2 := h.2 c9smallG (by decide)
  have h3 := h2.2 c9smallC (by decide)
  exact ⟨by decide, by decide, h2.1, h3.1, h3.2⟩
